import Mathlib

/-!
Verification of the numba-mlir lowering pipeline against its specification.

This file shallowly embeds the scalar-lowering and GPU-lowering helpers of the
repository and proves the specification claims about them:

* the binary-operation type-coercion rule `coerce` / `getBitsCount`
  (pipelines/PlierToStd.cpp);
* the Python-style modulo lowering `replaceImodOp` / `replaceFmodOp` and the
  comparison lowering `replaceCmpiOp` (pipelines/PlierToStd.cpp);
* the unary invert lowering `unaryInvert` (pipelines/PlierToStd.cpp);
* the scalar cast utilities `canConvert` / `doConvert` / `intCast` /
  `floatIntCast` (Transforms/CastUtils.cpp);
* the force-inline pass post-condition walk (Transforms/InlineUtils.cpp);
* the GPU buffer-flow analysis `getAccessType`, the allocation insertion of
  `InsertGPUAllocs`, and the parallel-loop tiling `TileParallelOp`
  (Conversion/GpuToGpuRuntime.cpp).

Machine integers are modelled as bit patterns (`Nat` below `2 ^ width`);
floating point values are modelled as exact rationals, which is faithful for
the concrete values used here (all intermediate results are exactly
representable, so IEEE rounding is the identity on them).
-/

/-- Signedness of an MLIR integer type: `signed`, `unsigned` or `signless`. -/
inductive Signedness
  | signed
  | unsigned
  | signless
deriving DecidableEq, Repr

/-- The float types the lowering distinguishes (`mlir::Float16Type` etc.). -/
inductive FloatKind
  | f16
  | f32
  | f64
deriving DecidableEq, Repr

/-- The MLIR types the lowered scalar code manipulates: integers with a width
and signedness, floats, `index`, `complex<elem>` and `none`. -/
inductive MType
  | int (width : Nat) (sign : Signedness)
  | float (fk : FloatKind)
  | index
  | complex (elem : MType)
  | noneType
deriving DecidableEq, Repr

/-- `type.isa<mlir::IntegerType>()` (PlierToStd.cpp `isInt`, CastUtils.cpp
`isInt`). -/
def isInt : MType → Bool
  | MType.int _ _ => true
  | _ => false

/-- `type.isa<mlir::FloatType>()` (PlierToStd.cpp `isFloat`, CastUtils.cpp
`isFloat`). -/
def isFloat : MType → Bool
  | MType.float _ => true
  | _ => false

/-- `type.isa<mlir::ComplexType>()` (PlierToStd.cpp `isComplex`). -/
def isComplex : MType → Bool
  | MType.complex _ => true
  | _ => false

/-- `type.isa<mlir::IndexType>()` (CastUtils.cpp `isIndex`). -/
def isIndex : MType → Bool
  | MType.index => true
  | _ => false

/-- CastUtils.cpp `isFloatComplex`: a complex type whose element type is a
float type. -/
def isFloatComplex : MType → Bool
  | MType.complex e => isFloat e
  | _ => false

/-- PlierToStd.cpp `isSupportedType`: integer, float or complex. -/
def isSupportedType (t : MType) : Bool :=
  isInt t || isFloat t || isComplex t

/-- `mlir::IntegerType::isSigned()`: true only for explicitly signed integer
types (signless is not signed). -/
def MType.isSigned : MType → Bool
  | MType.int _ Signedness.signed => true
  | _ => false

/-- `numba::makeSignlessType` (CastUtils.cpp): strip signedness from integer
types, keep everything else. -/
def makeSignlessType : MType → MType
  | MType.int w _ => MType.int w Signedness.signless
  | t => t

/-- PlierToStd.cpp `getBitsCount`: integer width for integers, mantissa width
for floats (f16 has 11, f32 has 24, f64 has 53), recursing into the element
type for complex.  The source is `llvm_unreachable` on any other type; we
return 0 there, and no theorem depends on those cases. -/
def getBitsCount : MType → Nat
  | MType.int w _ => w
  | MType.float FloatKind.f16 => 11
  | MType.float FloatKind.f32 => 24
  | MType.float FloatKind.f64 => 53
  | MType.complex e => getBitsCount e
  | _ => 0

/-- PlierToStd.cpp `coerce`: pick the result type for a binary op whose two
operand types differ.  Complex wins over non-complex, then float wins over
non-float, then the type with the larger `getBitsCount` (ties go to
`type0`). -/
def coerce (type0 type1 : MType) : MType :=
  if isComplex type0 && !isComplex type1 then type0
  else if !isComplex type0 && isComplex type1 then type1
  else if isFloat type0 && !isFloat type1 then type0
  else if !isFloat type0 && isFloat type1 then type1
  else if getBitsCount type0 < getBitsCount type1 then type1
  else type0

/-! ## Value model

Integer values are bit patterns (`Nat`, meaningful below `2 ^ width`); float
and complex values are exact rationals; `index` is a signed machine integer
modelled as `Int`. -/

/-- A scalar SSA value together with its type. -/
inductive MVal
  | intV (width : Nat) (sign : Signedness) (bits : Nat)
  | floatV (fk : FloatKind) (val : ℚ)
  | indexV (val : Int)
  | complexV (fk : FloatKind) (re im : ℚ)
  | noneV
deriving DecidableEq, Repr

/-- The type carried by a value (`mlir::Value::getType`). -/
def MVal.ty : MVal → MType
  | MVal.intV w s _ => MType.int w s
  | MVal.floatV fk _ => MType.float fk
  | MVal.indexV _ => MType.index
  | MVal.complexV fk _ _ => MType.complex (MType.float fk)
  | MVal.noneV => MType.noneType

/-- Interpret a `width`-bit pattern as a signed (two's complement) integer. -/
def toSigned (width : Nat) (bits : Nat) : Int :=
  if bits < 2 ^ (width - 1) then (bits : Int) else (bits : Int) - 2 ^ width

/-- Wrap a signed integer into a `width`-bit pattern. -/
def toPattern (width : Nat) (v : Int) : Nat :=
  (v % (2 ^ width : Int)).toNat

/-- Sign-extend a `srcW`-bit pattern to `dstW` bits (`arith.extsi`). -/
def sextPattern (srcW dstW : Nat) (bits : Nat) : Nat :=
  if bits < 2 ^ (srcW - 1) then bits else bits + (2 ^ dstW - 2 ^ srcW)

/-- Truncation toward zero of a rational, as used by `arith.fptosi` /
`arith.fptoui`. -/
def ratTrunc (q : ℚ) : Int :=
  if 0 ≤ q then ⌊q⌋ else -⌊-q⌋

/-! ## CastUtils.cpp: the scalar cast handlers

Each C++ handler builds a small op sequence; here each handler is the value
function of that op sequence.  `numba::util::SignCastOp` is bit-pattern
preserving, so on the bit-pattern representation it only changes the carried
type.  Branches that are `llvm_unreachable` / assertion failures in the source
are noted and mapped to an arbitrary well-typed value; no theorem depends on
them. -/

/-- CastUtils.cpp `intCast` (int to int).  Widening uses `arith.extsi` for a
signed source and `arith.extui` otherwise; narrowing to a 1-bit integer is a
compare-against-zero (`cmpi eq val, 0` then `select(cmp, 0, 1)`); any other
narrowing is `arith.trunci`.  Sign casts around the core op keep the bit
pattern. -/
def intCast (val : MVal) (dstType : MType) : MVal :=
  match val, dstType with
  | MVal.intV srcW srcS bits, MType.int dstW dstS =>
    if srcW < dstW then
      if srcS = Signedness.signed then
        MVal.intV dstW dstS (sextPattern srcW dstW bits)
      else
        MVal.intV dstW dstS bits
    else if dstW < srcW then
      if dstW = 1 then
        MVal.intV dstW dstS (if bits = 0 then 0 else 1)
      else
        MVal.intV dstW dstS (bits % 2 ^ dstW)
    else
      MVal.intV dstW dstS bits
  | _, _ => MVal.noneV

/-- CastUtils.cpp `intFloatCast`: `arith.sitofp` for a signed source,
`arith.uitofp` otherwise.  Rounding to the destination format is not modelled
(exact rational result); no theorem depends on rounded values. -/
def intFloatCast (val : MVal) (dstType : MType) : MVal :=
  match val, dstType with
  | MVal.intV srcW srcS bits, MType.float fk =>
    if srcS = Signedness.signed then
      MVal.floatV fk ((toSigned srcW bits : Int) : ℚ)
    else
      MVal.floatV fk ((bits : Nat) : ℚ)
  | _, _ => MVal.noneV

/-- CastUtils.cpp `floatIntCast`.  Destination width 1 is a
compare-against-zero: `cmpf oeq val, 0.0` then `select(cmp, 0, 1)` (the source
asserts the float is f32 or f64 there; the zero constant is 0 either way).
Otherwise `arith.fptosi` / `arith.fptoui` on the signless type followed by a
sign cast. -/
def floatIntCast (val : MVal) (dstType : MType) : MVal :=
  match val, dstType with
  | MVal.floatV _ v, MType.int dstW dstS =>
    if dstW = 1 then
      MVal.intV dstW dstS (if v = 0 then 0 else 1)
    else if dstS = Signedness.signed then
      MVal.intV dstW dstS (toPattern dstW (ratTrunc v))
    else
      MVal.intV dstW dstS (toPattern dstW (ratTrunc v))
  | _, _ => MVal.noneV

/-- CastUtils.cpp `numba::indexCast` (int to index or index to int):
sign casts around an `arith.index_cast`, which sign-extends or truncates. -/
def indexCast (val : MVal) (dstType : MType) : MVal :=
  match val, dstType with
  | MVal.intV srcW _ bits, MType.index => MVal.indexV (toSigned srcW bits)
  | MVal.indexV v, MType.int dstW dstS => MVal.intV dstW dstS (toPattern dstW v)
  | v, _ => v

/-- CastUtils.cpp `indexCastImpl`: a float source goes through `arith.fptosi`
to i64 first; a float destination goes through i64 then `arith.sitofp`;
otherwise plain `numba::indexCast`. -/
def indexCastImpl (val : MVal) (dstType : MType) : MVal :=
  let val2 := match val with
    | MVal.floatV _ v => MVal.intV 64 Signedness.signless (toPattern 64 (ratTrunc v))
    | v => v
  match dstType with
  | MType.float fk =>
    match indexCast val2 (MType.int 64 Signedness.signless) with
    | MVal.intV w _ bits => MVal.floatV fk ((toSigned w bits : Int) : ℚ)
    | _ => MVal.floatV fk 0
  | _ => indexCast val2 dstType

/-- CastUtils.cpp `floatCastImpl`: `arith.extf` or `arith.truncf`.  Rounding
of `truncf` is not modelled (exact rational result); no theorem depends on
it. -/
def floatCastImpl (val : MVal) (dstType : MType) : MVal :=
  match val, dstType with
  | MVal.floatV _ v, MType.float fk => MVal.floatV fk v
  | _, _ => MVal.noneV

/-- CastUtils.cpp `complexFromReal` composed with `floatCastImpl` as in
`floatFloatComplexCast`: build `complex.create val, 0.0`. -/
def floatFloatComplexCast (val : MVal) (dstType : MType) : MVal :=
  match val, dstType with
  | MVal.floatV _ v, MType.complex (MType.float fk) => MVal.complexV fk v 0
  | _, _ => MVal.noneV

/-- CastUtils.cpp `intFloatComplexCast`: `intFloatCast` into the element type
then `complexFromReal`. -/
def intFloatComplexCast (val : MVal) (dstType : MType) : MVal :=
  match val, dstType with
  | MVal.intV srcW srcS bits, MType.complex (MType.float fk) =>
    if srcS = Signedness.signed then
      MVal.complexV fk ((toSigned srcW bits : Int) : ℚ) 0
    else
      MVal.complexV fk ((bits : Nat) : ℚ) 0
  | _, _ => MVal.noneV

/-- CastUtils.cpp `CastHandler`: a source-type predicate, a destination-type
predicate and the cast builder. -/
structure CastHandler where
  src : MType → Bool
  dst : MType → Bool
  castOp : MVal → MType → MVal

/-- CastUtils.cpp `castHandlers`: the fixed table, in source order. -/
def castHandlers : List CastHandler :=
  [⟨isInt, isInt, intCast⟩,
   ⟨isInt, isFloat, intFloatCast⟩,
   ⟨isFloat, isInt, floatIntCast⟩,
   ⟨isIndex, isInt, indexCastImpl⟩,
   ⟨isInt, isIndex, indexCastImpl⟩,
   ⟨isFloat, isFloat, floatCastImpl⟩,
   ⟨isIndex, isFloat, indexCastImpl⟩,
   ⟨isFloat, isIndex, indexCastImpl⟩,
   ⟨isInt, isFloatComplex, intFloatComplexCast⟩,
   ⟨isFloat, isFloatComplex, floatFloatComplexCast⟩]

/-- CastUtils.cpp `numba::canConvert`: equal types always convert, otherwise
some handler's predicates must both hold. -/
def canConvert (srcType dstType : MType) : Bool :=
  srcType = dstType ||
    castHandlers.any (fun h => h.src srcType && h.dst dstType)

/-- CastUtils.cpp `numba::doConvert`: equal types return the value unchanged;
otherwise the first matching handler builds the cast; with no match a null
value (`none`) is returned. -/
def doConvert (val : MVal) (dstType : MType) : Option MVal :=
  if val.ty = dstType then some val
  else
    match castHandlers.find? (fun h => h.src val.ty && h.dst dstType) with
    | some h => some (h.castOp val dstType)
    | none => none

/-! ## PlierToStd.cpp: binary/unary operation lowering -/

/-- The `arith.cmpi` predicates used by the lowering. -/
inductive CmpIPredicate
  | eq
  | ne
  | slt
  | sle
  | sgt
  | sge
  | ult
  | ule
  | ugt
  | uge
deriving DecidableEq, Repr

/-- The `arith.cmpf` predicates used by the lowering (ordered comparisons). -/
inductive CmpFPredicate
  | oeq
  | one
  | olt
  | ole
  | ogt
  | oge
deriving DecidableEq, Repr

/-- Syntax of the scalar expressions emitted by the plier binary-op handlers:
operand references, `numba::doConvert` casts, the integer/float rem and add
ops, and compares. -/
inductive Expr
  | opnd (i : Nat)
  | convert (ty : MType) (e : Expr)
  | remSI (a b : Expr)
  | addI (a b : Expr)
  | remF (a b : Expr)
  | addF (a b : Expr)
  | cmpI (p : CmpIPredicate) (a b : Expr)
  | cmpF (p : CmpFPredicate) (a b : Expr)
deriving DecidableEq, Repr

/-- PlierToStd.cpp `replaceImodOp`: convert both operands to the signless
version of operand 0's type, then emit
`arith.remsi (arith.addi (arith.remsi a, b), b), b` and convert the result to
`newType`. -/
def replaceImodOp (ty0 newType : MType) : Expr :=
  let signlessType := makeSignlessType ty0
  let a := Expr.convert signlessType (Expr.opnd 0)
  let b := Expr.convert signlessType (Expr.opnd 1)
  let v1 := Expr.remSI a b
  let v2 := Expr.addI v1 b
  Expr.convert newType (Expr.remSI v2 b)

/-- PlierToStd.cpp `replaceFmodOp`: emit
`arith.remf (arith.addf (arith.remf a, b), b), b` directly on the operands. -/
def replaceFmodOp : Expr :=
  let a := Expr.opnd 0
  let b := Expr.opnd 1
  let v1 := Expr.remF a b
  let v2 := Expr.addF v1 b
  Expr.remF v2 b

/-- `arith.remf` semantics on the exact rational model: the remainder of
truncating division, sign following the dividend (IEEE `frem` / C `fmod`). -/
def fmodRat (x y : ℚ) : ℚ :=
  x - y * ((ratTrunc (x / y) : Int) : ℚ)

/-- Evaluate a float expression over exact rationals.  `env` gives the operand
values.  Integer ops, compares and converts do not occur in the float
expressions evaluated here; they evaluate to 0. -/
def evalFloatExpr (env : Nat → ℚ) : Expr → ℚ
  | Expr.opnd i => env i
  | Expr.remF a b => fmodRat (evalFloatExpr env a) (evalFloatExpr env b)
  | Expr.addF a b => evalFloatExpr env a + evalFloatExpr env b
  | _ => 0

/-- PlierToStd.cpp `replaceCmpiOp<SignedPred, UnsignedPred>`: both operands
are converted to the signless version of the operand type; the predicate is
`SignedPred` when `SignedPred == UnsignedPred` or the operand type is signed,
and `UnsignedPred` otherwise. -/
def replaceCmpiOpPred (signedPred unsignedPred : CmpIPredicate) (ty : MType) :
    CmpIPredicate :=
  if signedPred = unsignedPred || ty.isSigned then signedPred else unsignedPred

/-- PlierToStd.cpp `replaceCmpiOp`: the full emitted compare expression. -/
def replaceCmpiOp (signedPred unsignedPred : CmpIPredicate) (ty : MType) :
    Expr :=
  let signlessType := makeSignlessType ty
  Expr.cmpI (replaceCmpiOpPred signedPred unsignedPred ty)
    (Expr.convert signlessType (Expr.opnd 0))
    (Expr.convert signlessType (Expr.opnd 1))

/-- The comparison rows of the `BinOpLowering::matchAndRewrite` handler table:
operator name with the signed and unsigned `arith.cmpi` predicate the
`replaceCmpiOp` instantiation carries (source lines 498-518). -/
def cmpHandlerPreds : List (String × CmpIPredicate × CmpIPredicate) :=
  [(">", CmpIPredicate.sgt, CmpIPredicate.ugt),
   (">=", CmpIPredicate.sge, CmpIPredicate.uge),
   ("<", CmpIPredicate.slt, CmpIPredicate.ult),
   ("<=", CmpIPredicate.sle, CmpIPredicate.ule),
   ("!=", CmpIPredicate.ne, CmpIPredicate.ne),
   ("==", CmpIPredicate.eq, CmpIPredicate.eq)]

/-- `BinOpLowering::matchAndRewrite`, operand-coercion step: when the two
operand types differ, the final type is `coerce type0 type1` and both operands
go through `numba::doConvert` to that type; otherwise the operands are used
as-is.  (The preceding `literalCast` is the identity: it casts operand `i` to
its own type.)  Returns the final type and the two converted operands. -/
def binOpCoerce (v0 v1 : MVal) : MType × (Option MVal × Option MVal) :=
  if v0.ty = v1.ty then (v0.ty, (some v0, some v1))
  else
    let finalType := coerce v0.ty v1.ty
    (finalType, (doConvert v0 finalType, doConvert v1 finalType))

/-- PlierToStd.cpp `unaryInvert`.  Non-integer arguments are rejected (null).
A 1-bit argument is first zero-extended (`arith.extui`) to i64; wider
arguments only get bit-pattern-preserving sign casts.  Then the value is
XORed with an all-ones constant (`arith.constant -1`), and finally converted
to `resType` via `numba::doConvert` when the types differ (which is exactly
`doConvert`, since `doConvert` is the identity on equal types). -/
def unaryInvert (val : MVal) (resType : MType) : Option MVal :=
  match val with
  | MVal.intV w s bits =>
    let inv : MVal :=
      if w = 1 then
        MVal.intV 64 Signedness.signless (Nat.xor (2 ^ 64 - 1) bits)
      else
        MVal.intV w s (Nat.xor (2 ^ w - 1) bits)
    doConvert inv resType
  | _ => none

/-! ## InlineUtils.cpp: the force-inline pass -/

/-- A `func.func` in the module: its symbol and whether it carries the
force-inline attribute. -/
structure FuncDef where
  name : Nat
  forceInline : Bool
deriving DecidableEq, Repr

/-- A `func.call` op: its callee symbol and whether the call itself carries
the force-inline attribute. -/
structure CallSite where
  callee : Nat
  forceInline : Bool
deriving DecidableEq, Repr

/-- The module as the force-inline pass sees it: its functions and the call
ops found by the final `walk`, in walk order. -/
structure IRModule where
  funcs : List FuncDef
  calls : List CallSite
deriving Repr

/-- `mod.lookupSymbol<mlir::func::FuncOp>(callee)`. -/
def lookupSymbol (m : IRModule) (callee : Nat) : Option FuncDef :=
  m.funcs.find? (fun f => f.name = callee)

/-- InlineUtils.cpp `mustInline`: the force-inline attribute is on the call or
on the callee. -/
def mustInline (call : CallSite) (func : FuncDef) : Bool :=
  call.forceInline || func.forceInline

/-- The final walk of `ForceInlinePass::runOnOperation`: the calls on which an
error diagnostic is emitted — those whose callee resolves to a function in the
module and for which `mustInline` holds. -/
def forceInlineDiagnostics (m : IRModule) : List CallSite :=
  m.calls.filter (fun c =>
    match lookupSymbol m c.callee with
    | some f => mustInline c f
    | none => false)

/-- `signalPassFailure` is called iff at least one diagnostic was emitted. -/
def forceInlinePassFailed (m : IRModule) : Bool :=
  !(forceInlineDiagnostics m).isEmpty

/-! ## GpuToGpuRuntime.cpp: InsertGPUAllocs -/

/-- GpuToGpuRuntime.cpp `InsertGPUAllocs::AccessType`: the computed buffer
classification, together with the single device environment bound to the
buffer (`env`, an interned attribute modelled as `Nat`). -/
structure AccessType where
  env : Option Nat
  hostRead : Bool
  hostWrite : Bool
  deviceRead : Bool
  deviceWrite : Bool
deriving DecidableEq, Repr

/-- The initial classification (`AccessType ret;`). -/
def initAccess : AccessType :=
  ⟨none, false, false, false, false⟩

/-- One user of a buffer, as distinguished by `getAccessType`:
`func.return`; `memref.copy` (with this buffer as source and/or target); an op
with a memory-effect interface (read/write flags, whether it sits inside a
`gpu.launch`, and the gpu-region environment found by `getEnv`, when any); a
`func.call`; or anything else (skipped). -/
inductive MemUser
  | ret
  | copy (isSource isTarget : Bool)
  | memEffect (read write onDevice : Bool) (env : Option Nat)
  | call (onDevice : Bool) (env : Option Nat)
  | other
deriving DecidableEq, Repr

/-- The env-merging step of `getAccessType`: a user inside a gpu-region either
binds the buffer's environment (first device use) or must agree with the
already-bound one; disagreement is the "Device conflict" error. -/
def mergeEnv (cur : Option Nat) (env : Option Nat) : Except Unit (Option Nat) :=
  match env with
  | none => Except.ok cur
  | some e =>
    match cur with
    | none => Except.ok (some e)
    | some c => if c = e then Except.ok (some c) else Except.error ()

/-- GpuToGpuRuntime.cpp `getAccessType` (the loop body over a buffer's users,
aliases flattened into one user list): `func.return` marks host read+write;
`memref.copy` marks host read (source) / host write (target); a memory-effect
op marks device or host read/write according to its placement, and on-device
ops additionally bind/check the environment; `func.call` marks read+write on
its side and binds/checks likewise; other users are skipped. -/
def getAccessType : List MemUser → AccessType → Except Unit AccessType
  | [], acc => Except.ok acc
  | MemUser.ret :: rest, acc =>
    getAccessType rest { acc with hostRead := true, hostWrite := true }
  | MemUser.copy isSrc isTgt :: rest, acc =>
    getAccessType rest
      { acc with hostRead := acc.hostRead || isSrc,
                 hostWrite := acc.hostWrite || isTgt }
  | MemUser.memEffect r w dev env :: rest, acc =>
    let acc2 : AccessType :=
      { acc with hostRead := acc.hostRead || (r && !dev),
                 deviceRead := acc.deviceRead || (r && dev),
                 hostWrite := acc.hostWrite || (w && !dev),
                 deviceWrite := acc.deviceWrite || (w && dev) }
    if dev then
      match mergeEnv acc2.env env with
      | Except.ok e => getAccessType rest { acc2 with env := e }
      | Except.error u => Except.error u
    else
      getAccessType rest acc2
  | MemUser.call dev env :: rest, acc =>
    let acc2 : AccessType :=
      { acc with hostRead := acc.hostRead || !dev,
                 hostWrite := acc.hostWrite || !dev,
                 deviceRead := acc.deviceRead || dev,
                 deviceWrite := acc.deviceWrite || dev }
    if dev then
      match mergeEnv acc2.env env with
      | Except.ok e => getAccessType rest { acc2 with env := e }
      | Except.error u => Except.error u
    else
      getAccessType rest acc2
  | MemUser.other :: rest, acc => getAccessType rest acc

/-- The gpu-region environments of a buffer's on-device users, in order. -/
def deviceEnvs : List MemUser → List Nat
  | [] => []
  | MemUser.memEffect _ _ true (some e) :: rest => e :: deviceEnvs rest
  | MemUser.call true (some e) :: rest => e :: deviceEnvs rest
  | _ :: rest => deviceEnvs rest

/-- What `createGpuAlloc` (GpuToGpuRuntime.cpp) emits for a classified
parameter/global buffer: the `gpu.alloc` hostShared flag, whether a
host-to-device `memref.copy` is emitted right after the alloc, whether a
device-to-host `memref.copy` is emitted before the function terminator, and
the unconditional `gpu.dealloc` before the terminator. -/
structure GpuAllocResult where
  hostShared : Bool
  copyHostToDevice : Bool
  copyDeviceToHost : Bool
  deallocAtEnd : Bool
deriving DecidableEq, Repr

/-- GpuToGpuRuntime.cpp `createGpuAlloc`, summarized. -/
def createGpuAlloc (access : AccessType) : GpuAllocResult :=
  { hostShared := access.hostRead || access.hostWrite
    copyHostToDevice := access.hostWrite && access.deviceRead
    copyDeviceToHost := access.hostRead && access.deviceWrite
    deallocAtEnd := true }

/-- The hostShared flag used when a host `memref.alloc` is replaced by a
`gpu.alloc` in `InsertGPUAllocs::runOnOperation`. -/
def allocReplacementHostShared (access : AccessType) : Bool :=
  access.hostRead || access.hostWrite

/-- `InsertGPUAllocs::runOnOperation` on one function-parameter buffer: run
`getAccessType` on the parameter's users, then force `hostRead` and
`hostWrite` to true (parameter buffers are assumed host-accessible), then emit
via `createGpuAlloc`.  Classification failure fails the pass. -/
def insertGpuAllocsParam (users : List MemUser) : Except Unit GpuAllocResult :=
  match getAccessType users initAccess with
  | Except.ok a =>
    Except.ok (createGpuAlloc { a with hostRead := true, hostWrite := true })
  | Except.error u => Except.error u

/-! ## GpuToGpuRuntime.cpp: TileParallelOp -/

/-- GpuToGpuRuntime.cpp `getProcessor`: loop dims 0..5 map to
BlockX/BlockY/BlockZ/ThreadX/ThreadY/ThreadZ; anything past the mapping table
is Sequential. -/
inductive Processor
  | blockX
  | blockY
  | blockZ
  | threadX
  | threadY
  | threadZ
  | sequential
deriving DecidableEq, Repr

/-- GpuToGpuRuntime.cpp `getProcessor`. -/
def getProcessor (val : Nat) : Processor :=
  match val with
  | 0 => Processor.blockX
  | 1 => Processor.blockY
  | 2 => Processor.blockZ
  | 3 => Processor.threadX
  | 4 => Processor.threadY
  | 5 => Processor.threadZ
  | _ => Processor.sequential

/-- `arith.ceildivui` on index values (bounds are nonnegative here). -/
def ceilDivUI (a b : Nat) : Nat :=
  (a + b - 1) / b

/-- `TileParallelOp::matchAndRewrite`, `numLoops`: among the first
`maxLoops = 3` dimensions, count those with constant lower bound 0 and
constant step 1. -/
def tileNumLoops (lowerBounds steps : List Nat) : Nat :=
  (((lowerBounds.take 3).zip (steps.take 3)).filter
    (fun p => p.1 = 0 && p.2 = 1)).length

/-- `TileParallelOp::matchAndRewrite`, `globalSize`: a 3-vector filled with 1
and overwritten by the first `numLoops` upper bounds. -/
def tileGlobalSize (upperBounds : List Nat) (numLoops : Nat) (i : Nat) : Nat :=
  if i < numLoops then upperBounds.getD i 1 else 1

/-- `TileParallelOp::matchAndRewrite`, the new upper bounds: three grid dims
(`ceildivui(old upper bound, suggested block size)` on tiled axes, 1 on unused
axes), then three block dims (the suggested block size on tiled axes, 1 on
unused axes), then the untouched remaining dims of the original loop.
`localSize` is the result vector of the `gpu_runtime.suggest_block_size`
call. -/
def tileNewUpperBounds (upperBounds : List Nat) (localSize : Nat → Nat)
    (numLoops : Nat) : List Nat :=
  ((List.range 3).map fun i =>
      if i < numLoops then ceilDivUI (upperBounds.getD i 1) (localSize i)
      else 1)
    ++ ((List.range 3).map fun i => if i < numLoops then localSize i else 1)
    ++ upperBounds.drop numLoops

/-- The flat index rebuilt inside the new loop body for tiled axis `i`:
`gridId * blockSize + blockId`. -/
def tileFlatIndex (gridIds blockIds localSize : Nat → Nat) (i : Nat) : Nat :=
  gridIds i * localSize i + blockIds i

/-- The in-bounds guard conjoined over the tiled axes: each rebuilt flat index
is compared (`arith.cmpi slt`) against `globalSize i`, i.e. the original
upper bound, and the comparisons are AND-folded; the body moves into an
`scf.if` on this condition.  (All values involved are nonnegative, so the
signed compare is the natural-number compare.) -/
def tileInBounds (gridIds blockIds localSize : Nat → Nat)
    (upperBounds : List Nat) (numLoops : Nat) : Bool :=
  (List.range numLoops).all fun i =>
    decide (tileFlatIndex gridIds blockIds localSize i <
      tileGlobalSize upperBounds numLoops i)

/-- The processor mapping attached to the new loop: dimension `i` of the new
loop maps to `getProcessor i`. -/
def tileMapping (newLoopsCount : Nat) : List Processor :=
  (List.range newLoopsCount).map getProcessor

/-! ## Theorems -/

lemma isInt_shape {t : MType} (h : isInt t = true) :
    ∃ w s, t = MType.int w s := by
  cases t <;> simp_all [isInt]

lemma isFloat_shape {t : MType} (h : isFloat t = true) :
    ∃ fk, t = MType.float fk := by
  cases t <;> simp_all [isFloat]

lemma isIndex_shape {t : MType} (h : isIndex t = true) : t = MType.index := by
  cases t <;> simp_all [isIndex]

lemma isFloatComplex_shape {t : MType} (h : isFloatComplex t = true) :
    ∃ fk, t = MType.complex (MType.float fk) := by
  cases t with
  | complex e => cases e <;> simp_all [isFloatComplex, isFloat]
  | _ => simp_all [isFloatComplex]

lemma ty_int_shape {v : MVal} {w s} (h : v.ty = MType.int w s) :
    ∃ bits, v = MVal.intV w s bits := by
  cases v <;> simp_all [MVal.ty]

lemma ty_float_shape {v : MVal} {fk} (h : v.ty = MType.float fk) :
    ∃ q, v = MVal.floatV fk q := by
  cases v <;> simp_all [MVal.ty]

lemma ty_index_shape {v : MVal} (h : v.ty = MType.index) :
    ∃ n, v = MVal.indexV n := by
  cases v <;> simp_all [MVal.ty]

lemma castHandlers_ty :
    ∀ h ∈ castHandlers, ∀ (v : MVal) (d : MType),
      h.src v.ty = true → h.dst d = true → (h.castOp v d).ty = d := by
  intro h hm v d hs hd
  fin_cases hm
  case _ => -- int → int
    obtain ⟨w0, s0, hv⟩ := isInt_shape hs
    obtain ⟨bits, rfl⟩ := ty_int_shape hv
    obtain ⟨w1, s1, rfl⟩ := isInt_shape hd
    simp only [intCast]
    split_ifs <;> rfl
  case _ => -- int → float
    obtain ⟨w0, s0, hv⟩ := isInt_shape hs
    obtain ⟨bits, rfl⟩ := ty_int_shape hv
    obtain ⟨fk, rfl⟩ := isFloat_shape hd
    simp only [intFloatCast]
    split_ifs <;> rfl
  case _ => -- float → int
    obtain ⟨fk, hv⟩ := isFloat_shape hs
    obtain ⟨q, rfl⟩ := ty_float_shape hv
    obtain ⟨w1, s1, rfl⟩ := isInt_shape hd
    simp only [floatIntCast]
    split_ifs <;> rfl
  case _ => -- index → int
    have hv := isIndex_shape hs
    obtain ⟨n, rfl⟩ := ty_index_shape hv
    obtain ⟨w1, s1, rfl⟩ := isInt_shape hd
    rfl
  case _ => -- int → index
    obtain ⟨w0, s0, hv⟩ := isInt_shape hs
    obtain ⟨bits, rfl⟩ := ty_int_shape hv
    have := isIndex_shape hd
    subst this
    rfl
  case _ => -- float → float
    obtain ⟨fk, hv⟩ := isFloat_shape hs
    obtain ⟨q, rfl⟩ := ty_float_shape hv
    obtain ⟨fk1, rfl⟩ := isFloat_shape hd
    rfl
  case _ => -- index → float
    have hv := isIndex_shape hs
    obtain ⟨n, rfl⟩ := ty_index_shape hv
    obtain ⟨fk, rfl⟩ := isFloat_shape hd
    rfl
  case _ => -- float → index
    obtain ⟨fk, hv⟩ := isFloat_shape hs
    obtain ⟨q, rfl⟩ := ty_float_shape hv
    have := isIndex_shape hd
    subst this
    rfl
  case _ => -- int → float complex
    obtain ⟨w0, s0, hv⟩ := isInt_shape hs
    obtain ⟨bits, rfl⟩ := ty_int_shape hv
    obtain ⟨fk, rfl⟩ := isFloatComplex_shape hd
    simp only [intFloatComplexCast]
    split_ifs <;> rfl
  case _ => -- float → float complex
    obtain ⟨fk, hv⟩ := isFloat_shape hs
    obtain ⟨q, rfl⟩ := ty_float_shape hv
    obtain ⟨fk1, rfl⟩ := isFloatComplex_shape hd
    rfl

lemma doConvert_ty {v : MVal} {d : MType} {w : MVal}
    (h : doConvert v d = some w) : w.ty = d := by
  unfold doConvert at h
  split_ifs at h with heq
  · cases h; exact heq
  · cases hfind : castHandlers.find? (fun h => h.src v.ty && h.dst d) with
    | none => rw [hfind] at h; cases h
    | some hh =>
      rw [hfind] at h
      cases h
      have hmem := List.mem_of_find?_eq_some hfind
      have hpred := List.find?_some hfind
      simp only [Bool.and_eq_true] at hpred
      exact castHandlers_ty hh hmem v d hpred.1 hpred.2

/-- C1: for a binary plier op with differing operand types, `coerce` picks
the complex type when exactly one side is complex, else the float type when
exactly one side is float, else (both integer) the type with the larger
`getBitsCount` (integer width for integers; mantissa width 11/24/53 for
f16/f32/f64), and `BinOpLowering` converts both operands to that type via
`numba::doConvert` before emitting the op (the converted operands carry the
coerced type). -/
theorem c1_binop_coercion (t0 t1 : MType) (hne : t0 ≠ t1)
    (hs0 : isSupportedType t0 = true) (hs1 : isSupportedType t1 = true) :
    (isComplex t0 = true ∧ isComplex t1 = false → coerce t0 t1 = t0) ∧
    (isComplex t0 = false ∧ isComplex t1 = true → coerce t0 t1 = t1) ∧
    (isComplex t0 = false ∧ isComplex t1 = false ∧ isFloat t0 = true ∧
        isFloat t1 = false → coerce t0 t1 = t0) ∧
    (isComplex t0 = false ∧ isComplex t1 = false ∧ isFloat t0 = false ∧
        isFloat t1 = true → coerce t0 t1 = t1) ∧
    (isInt t0 = true → isInt t1 = true →
      (getBitsCount t1 < getBitsCount t0 → coerce t0 t1 = t0) ∧
      (getBitsCount t0 < getBitsCount t1 → coerce t0 t1 = t1)) ∧
    (∀ w s, getBitsCount (MType.int w s) = w) ∧
    getBitsCount (MType.float FloatKind.f16) = 11 ∧
    getBitsCount (MType.float FloatKind.f32) = 24 ∧
    getBitsCount (MType.float FloatKind.f64) = 53 ∧
    (∀ v0 v1 : MVal, v0.ty = t0 → v1.ty = t1 →
      (binOpCoerce v0 v1).1 = coerce t0 t1 ∧
      (binOpCoerce v0 v1).2.1 = doConvert v0 (coerce t0 t1) ∧
      (binOpCoerce v0 v1).2.2 = doConvert v1 (coerce t0 t1) ∧
      (∀ w0, doConvert v0 (coerce t0 t1) = some w0 → w0.ty = coerce t0 t1) ∧
      (∀ w1, doConvert v1 (coerce t0 t1) = some w1 → w1.ty = coerce t0 t1)) := by
  refine ⟨?_, ?_, ?_, ?_, ?_, fun w s => rfl, rfl, rfl, rfl, ?_⟩
  · rintro ⟨h0, h1⟩
    simp [coerce, h0, h1]
  · rintro ⟨h0, h1⟩
    simp [coerce, h0, h1]
  · rintro ⟨h0, h1, h2, h3⟩
    simp [coerce, h0, h1, h2, h3]
  · rintro ⟨h0, h1, h2, h3⟩
    simp [coerce, h0, h1, h2, h3]
  · intro h0 h1
    obtain ⟨w0, s0, rfl⟩ := isInt_shape h0
    obtain ⟨w1, s1, rfl⟩ := isInt_shape h1
    constructor
    · intro hlt
      simp [coerce, isComplex, isFloat, getBitsCount] at hlt ⊢
      omega
    · intro hlt
      simp [coerce, isComplex, isFloat, getBitsCount] at hlt ⊢
      omega
  · intro v0 v1 h0 h1
    have hvne : v0.ty ≠ v1.ty := by rw [h0, h1]; exact hne
    refine ⟨?_, ?_, ?_, fun w0 hw => doConvert_ty hw, fun w1 hw => doConvert_ty hw⟩
    · simp [binOpCoerce, h0, h1, hne]
    · simp [binOpCoerce, h0, h1, hne]
    · simp [binOpCoerce, h0, h1, hne]

/-- Witness for C1 at `i32 signed` vs `i64 signed`. -/
theorem c1_binop_coercion_witness :
    ((MType.int 32 Signedness.signed : MType) ≠ MType.int 64 Signedness.signed) ∧
    coerce (MType.int 32 Signedness.signed) (MType.int 64 Signedness.signed) =
      MType.int 64 Signedness.signed := by
  have h := c1_binop_coercion (MType.int 32 Signedness.signed)
    (MType.int 64 Signedness.signed) (by decide) (by decide) (by decide)
  exact ⟨by decide, h.2.2.2.2.1 rfl rfl |>.2 (by decide)⟩

/-- C2: the plier `%` op lowers to `((a rem b) + b) rem b` both for integers
(`replaceImodOp`, with signless casts around the computation) and for floats
(`replaceFmodOp`); evaluating the float lowering at `a = -5.0`, `b = 3.0`
yields `1.0` (Python modulo semantics). -/
theorem c2_python_modulo :
    (∀ ty0 newType : MType,
      replaceImodOp ty0 newType =
        Expr.convert newType
          (Expr.remSI
            (Expr.addI
              (Expr.remSI (Expr.convert (makeSignlessType ty0) (Expr.opnd 0))
                (Expr.convert (makeSignlessType ty0) (Expr.opnd 1)))
              (Expr.convert (makeSignlessType ty0) (Expr.opnd 1)))
            (Expr.convert (makeSignlessType ty0) (Expr.opnd 1)))) ∧
    replaceFmodOp =
      Expr.remF
        (Expr.addF (Expr.remF (Expr.opnd 0) (Expr.opnd 1)) (Expr.opnd 1))
        (Expr.opnd 1) ∧
    evalFloatExpr (fun i => if i = 0 then (-5 : ℚ) else 3) replaceFmodOp = 1 := by
  refine ⟨fun ty0 newType => rfl, rfl, ?_⟩
  have h1 : fmodRat (-5) 3 = -2 := by
    norm_num [fmodRat, ratTrunc]
  have h2 : fmodRat 1 3 = 1 := by
    norm_num [fmodRat, ratTrunc]
  simp [replaceFmodOp, evalFloatExpr, h1]
  norm_num [h2]

/-- C3: for each comparison row of the `BinOpLowering` handler table, the
lowered `arith.cmpi` uses the signed predicate iff the coerced operand
integer type is signed (for `<`, `<=`, `>`, `>=`), and for `==` / `!=` the
same predicate is used regardless of signedness. -/
theorem c3_cmp_signedness (name : String) (sp up : CmpIPredicate)
    (hmem : (name, sp, up) ∈ cmpHandlerPreds) (w : Nat) (s : Signedness) :
    (name = "<" ∨ name = "<=" ∨ name = ">" ∨ name = ">=" →
      (replaceCmpiOpPred sp up (MType.int w s) = sp ↔ s = Signedness.signed) ∧
      (s ≠ Signedness.signed →
        replaceCmpiOpPred sp up (MType.int w s) = up)) ∧
    (name = "==" ∨ name = "!=" →
      ∀ s2, replaceCmpiOpPred sp up (MType.int w s) =
        replaceCmpiOpPred sp up (MType.int w s2)) ∧
    replaceCmpiOp sp up (MType.int w s) =
      Expr.cmpI (replaceCmpiOpPred sp up (MType.int w s))
        (Expr.convert (MType.int w Signedness.signless) (Expr.opnd 0))
        (Expr.convert (MType.int w Signedness.signless) (Expr.opnd 1)) := by
  fin_cases hmem <;>
    refine ⟨?_, ?_, rfl⟩ <;>
    intro hname <;>
    first
      | exact absurd hname (by decide)
      | (intro s2; cases s <;> cases s2 <;>
          simp [replaceCmpiOpPred, MType.isSigned])
      | (cases s <;>
          simp [replaceCmpiOpPred, MType.isSigned])

/-- Witness for C3: an unsigned `<` compare uses the unsigned predicate. -/
theorem c3_cmp_signedness_witness :
    (replaceCmpiOpPred CmpIPredicate.slt CmpIPredicate.ult
        (MType.int 64 Signedness.unsigned) = CmpIPredicate.slt ↔
      Signedness.unsigned = Signedness.signed) ∧
    (Signedness.unsigned ≠ Signedness.signed →
      replaceCmpiOpPred CmpIPredicate.slt CmpIPredicate.ult
        (MType.int 64 Signedness.unsigned) = CmpIPredicate.ult) := by
  have h := c3_cmp_signedness "<" CmpIPredicate.slt CmpIPredicate.ult
    (by decide) 64 Signedness.unsigned
  exact h.1 (Or.inl rfl)

/-- C4 counterexample: the claim says `~true` yields `false`, but the
lowering of `~` on an i1 `true` produces the 64-bit pattern `2 ^ 64 - 2`
(nonzero), and casting that back to bool yields `true`, not `false`. -/
theorem c4_invert_counterexample :
    unaryInvert (MVal.intV 1 Signedness.signless 1)
        (MType.int 64 Signedness.signless) =
      some (MVal.intV 64 Signedness.signless (2 ^ 64 - 2)) ∧
    (2 ^ 64 - 2 : Nat) ≠ 0 ∧
    unaryInvert (MVal.intV 1 Signedness.signless 1)
        (MType.int 1 Signedness.signless) =
      some (MVal.intV 1 Signedness.signless 1) := by
  refine ⟨?_, by norm_num, ?_⟩ <;> decide

/-- C4 amended: unary `~` on an i1 value zero-extends it to 64 bits and XORs
with all-ones; applied to `true` it yields the 64-bit pattern `2 ^ 64 - 2`
(the signed value -2), which is nonzero, so converting it back to bool gives
`true`, not `false`. -/
theorem c4_invert_amended :
    (∀ bits : Nat,
      unaryInvert (MVal.intV 1 Signedness.signless bits)
          (MType.int 64 Signedness.signless) =
        some (MVal.intV 64 Signedness.signless (Nat.xor (2 ^ 64 - 1) bits))) ∧
    unaryInvert (MVal.intV 1 Signedness.signless 1)
        (MType.int 64 Signedness.signless) =
      some (MVal.intV 64 Signedness.signless (2 ^ 64 - 2)) ∧
    toSigned 64 (2 ^ 64 - 2) = -2 ∧
    doConvert (MVal.intV 64 Signedness.signless (2 ^ 64 - 2))
        (MType.int 1 Signedness.signless) =
      some (MVal.intV 1 Signedness.signless 1) := by
  refine ⟨fun bits => ?_, by decide, by decide, by decide⟩
  simp [unaryInvert, doConvert, MVal.ty]

/-- C9: `doConvert` returns a value iff `canConvert` holds on the types
(equal types or a matching entry in the fixed handler table); equal types
return the input value unchanged; otherwise a null value is returned for
unsupported pairs. -/
theorem c9_doConvert_iff_canConvert (v : MVal) (d : MType) :
    ((doConvert v d).isSome ↔ canConvert v.ty d = true) ∧
    (v.ty = d → doConvert v d = some v) := by
  constructor
  · by_cases heq : v.ty = d
    · simp [doConvert, canConvert, heq]
    · simp only [doConvert, if_neg heq, canConvert, Bool.or_eq_true,
        decide_eq_true_eq, heq, false_or]
      cases hf : castHandlers.find? (fun hh => hh.src v.ty && hh.dst d) with
      | none =>
        simp only [if_false, Option.isSome_none, Bool.false_eq_true, false_iff]
        simp only [List.any_eq_true, not_exists, not_and]
        intro hh hmem hpred
        have := List.find?_eq_none.mp hf hh hmem
        simp_all
      | some hh =>
        simp only [if_false, Option.isSome_some, true_iff, List.any_eq_true]
        refine ⟨hh, List.mem_of_find?_eq_some hf, ?_⟩
        simpa using List.find?_some hf
  · intro heq
    simp [doConvert, heq]

/-- Witness for C9: identity conversion, and complex-to-int returns null. -/
theorem c9_doConvert_iff_canConvert_witness :
    doConvert (MVal.intV 32 Signedness.signless 7)
        (MType.int 32 Signedness.signless) =
      some (MVal.intV 32 Signedness.signless 7) ∧
    doConvert (MVal.complexV FloatKind.f64 1 1)
        (MType.int 64 Signedness.signless) = none := by
  constructor
  · exact (c9_doConvert_iff_canConvert _ _).2 rfl
  · have h := (c9_doConvert_iff_canConvert (MVal.complexV FloatKind.f64 1 1)
      (MType.int 64 Signedness.signless)).1
    have hcc : canConvert (MVal.complexV FloatKind.f64 1 1).ty
        (MType.int 64 Signedness.signless) = false := by decide
    rw [hcc] at h
    simpa using Option.not_isSome_iff_eq_none.mp (by simp [h])

/-- C10: casting any integer of width above 1 or any f32/f64 float to a
1-bit integer produces a compare-against-zero (result bit is 1 iff the
source is nonzero), not a bit truncation. -/
theorem c10_bool_cast_is_cmp_zero (w : Nat) (s sd : Signedness) (bits : Nat)
    (fk : FloatKind) (q : ℚ) (hw : 1 < w)
    (hfk : fk = FloatKind.f32 ∨ fk = FloatKind.f64) :
    doConvert (MVal.intV w s bits) (MType.int 1 sd) =
      some (MVal.intV 1 sd (if bits = 0 then 0 else 1)) ∧
    doConvert (MVal.floatV fk q) (MType.int 1 sd) =
      some (MVal.intV 1 sd (if q = 0 then 0 else 1)) ∧
    doConvert (MVal.intV w s 2) (MType.int 1 sd) ≠
      some (MVal.intV 1 sd (2 % 2 ^ 1)) := by
  have hne : (MVal.intV w s bits).ty ≠ MType.int 1 sd := by
    simp [MVal.ty]
    intro h
    omega
  have hne2 : (MVal.intV w s 2).ty ≠ MType.int 1 sd := by
    simp [MVal.ty]
    intro h
    omega
  refine ⟨?_, ?_, ?_⟩
  · simp [doConvert, hne, castHandlers, List.find?, isInt, MVal.ty, intCast]
    split_ifs <;> simp_all <;> omega
  · simp [doConvert, castHandlers, List.find?, isInt, isFloat, MVal.ty,
      floatIntCast]
  · simp [doConvert, hne2, castHandlers, List.find?, isInt, MVal.ty, intCast]
    split_ifs <;> simp_all <;> omega

/-- Witness for C10 at width 8 and f32, including the non-truncation case. -/
theorem c10_bool_cast_is_cmp_zero_witness :
    (1 : Nat) < 8 ∧
    doConvert (MVal.intV 8 Signedness.signless 5)
        (MType.int 1 Signedness.signless) =
      some (MVal.intV 1 Signedness.signless 1) ∧
    doConvert (MVal.floatV FloatKind.f32 3) (MType.int 1 Signedness.signless) =
      some (MVal.intV 1 Signedness.signless 1) ∧
    doConvert (MVal.intV 8 Signedness.signless 2)
        (MType.int 1 Signedness.signless) ≠
      some (MVal.intV 1 Signedness.signless (2 % 2 ^ 1)) := by
  have h := c10_bool_cast_is_cmp_zero 8 Signedness.signless Signedness.signless
    5 FloatKind.f32 3 (by decide) (Or.inl rfl)
  exact ⟨by decide, by simpa using h.1, by simpa using h.2.1, h.2.2⟩

/-- C5: after the greedy rewrite of the force-inline pass, for any resulting
module whose calls all resolve (a verified-IR invariant of `func.call`):
if the pass did not fail then no remaining call is force-inline marked (on
the call or its callee); any remaining marked call makes the pass fail with
a diagnostic on that call; and every diagnostic names a remaining marked
call. -/
theorem c5_force_inline_post (m : IRModule)
    (hresolve : ∀ c ∈ m.calls, ∃ f, lookupSymbol m c.callee = some f) :
    (forceInlinePassFailed m = false →
      ∀ c ∈ m.calls, ∃ f, lookupSymbol m c.callee = some f ∧
        mustInline c f = false) ∧
    (∀ c ∈ m.calls, ∀ f, lookupSymbol m c.callee = some f →
      mustInline c f = true →
        forceInlinePassFailed m = true ∧ c ∈ forceInlineDiagnostics m) ∧
    (∀ c ∈ forceInlineDiagnostics m, c ∈ m.calls ∧
      ∃ f, lookupSymbol m c.callee = some f ∧ mustInline c f = true) := by
  refine ⟨?_, ?_, ?_⟩
  · intro hok c hc
    obtain ⟨f, hf⟩ := hresolve c hc
    refine ⟨f, hf, ?_⟩
    by_contra hmi
    rw [Bool.not_eq_false] at hmi
    have hfilter : c ∈ forceInlineDiagnostics m := by
      refine List.mem_filter.mpr ⟨hc, ?_⟩
      rw [hf]
      exact hmi
    rw [forceInlinePassFailed, Bool.not_eq_false'] at hok
    rw [List.isEmpty_iff] at hok
    rw [hok] at hfilter
    cases hfilter
  · intro c hc f hf hmi
    have hfilter : c ∈ forceInlineDiagnostics m := by
      refine List.mem_filter.mpr ⟨hc, ?_⟩
      rw [hf]
      exact hmi
    refine ⟨?_, hfilter⟩
    cases hdiag : forceInlineDiagnostics m with
    | nil => rw [hdiag] at hfilter; cases hfilter
    | cons x xs => rw [forceInlinePassFailed, hdiag]; rfl
  · intro c hc
    have := List.mem_filter.mp hc
    refine ⟨this.1, ?_⟩
    have hp := this.2
    cases hfind : lookupSymbol m c.callee with
    | none => rw [hfind] at hp; cases hp
    | some f =>
      rw [hfind] at hp
      exact ⟨f, rfl, hp⟩

/-- Witness for C5: a marked callee with a remaining call fails the pass. -/
theorem c5_force_inline_post_witness :
    (forceInlinePassFailed ⟨[⟨0, true⟩], [⟨0, false⟩]⟩ = true ∧
      (⟨0, false⟩ : CallSite) ∈
        forceInlineDiagnostics ⟨[⟨0, true⟩], [⟨0, false⟩]⟩) := by
  have h := c5_force_inline_post ⟨[⟨0, true⟩], [⟨0, false⟩]⟩
    (by intro c hc; exact ⟨⟨0, true⟩, by simp_all [lookupSymbol]⟩)
  exact h.2.1 ⟨0, false⟩ (by decide) ⟨0, true⟩ (by decide) (by decide)

/-- C7: the inserted device alloc's hostShared flag equals
`hostRead || hostWrite` of the computed access (both for the host-alloc
replacement path and for `createGpuAlloc`); the host-to-device copy is
emitted iff `hostWrite && deviceRead`, the device-to-host copy before return
iff `hostRead && deviceWrite`, the dealloc before return always; and a
function-parameter buffer is forced host-read/host-write, so its device
alloc always has `hostShared = true`. -/
theorem c7_gpu_alloc_flags (a : AccessType) (users : List MemUser)
    (r : GpuAllocResult) (hr : insertGpuAllocsParam users = Except.ok r) :
    (createGpuAlloc a).hostShared = (a.hostRead || a.hostWrite) ∧
    allocReplacementHostShared a = (a.hostRead || a.hostWrite) ∧
    (createGpuAlloc a).copyHostToDevice = (a.hostWrite && a.deviceRead) ∧
    (createGpuAlloc a).copyDeviceToHost = (a.hostRead && a.deviceWrite) ∧
    (createGpuAlloc a).deallocAtEnd = true ∧
    r.hostShared = true ∧
    r.deallocAtEnd = true := by
  refine ⟨rfl, rfl, rfl, rfl, rfl, ?_, ?_⟩ <;>
  · unfold insertGpuAllocsParam at hr
    cases hacc : getAccessType users initAccess with
    | ok a2 => rw [hacc] at hr; cases hr; rfl
    | error u => rw [hacc] at hr; cases hr

/-- Witness for C7 on a device-written, host-read buffer. -/
theorem c7_gpu_alloc_flags_witness :
    (createGpuAlloc ⟨none, true, false, false, true⟩).hostShared = true ∧
    (createGpuAlloc ⟨none, true, false, false, true⟩).copyHostToDevice =
      false ∧
    (createGpuAlloc ⟨none, true, false, false, true⟩).copyDeviceToHost =
      true ∧
    (createGpuAlloc ⟨none, true, false, false, true⟩).deallocAtEnd = true := by
  have h := c7_gpu_alloc_flags ⟨none, true, false, false, true⟩
    [MemUser.ret] (createGpuAlloc ⟨none, true, true, false, false⟩) rfl
  exact ⟨h.1, h.2.2.1, h.2.2.2.1, h.2.2.2.2.1⟩

lemma getAccessType_env_mono :
    ∀ (us : List MemUser) (acc a : AccessType) (c : Nat),
      getAccessType us acc = Except.ok a → acc.env = some c →
        a.env = some c := by
  intro us
  induction us with
  | nil =>
    intro acc a c h hc
    simp only [getAccessType] at h
    cases h
    exact hc
  | cons u rest ih =>
    intro acc a c h hc
    cases u with
    | ret => exact ih _ a c h hc
    | copy isSrc isTgt => exact ih _ a c h hc
    | other => exact ih _ a c h hc
    | memEffect r w dev env =>
      cases dev with
      | false =>
        simp only [getAccessType] at h
        exact ih _ a c h hc
      | true =>
        cases env with
        | none =>
          simp only [getAccessType, mergeEnv, hc] at h
          exact ih _ a c h rfl
        | some e =>
          simp only [getAccessType, mergeEnv, hc] at h
          by_cases hce : c = e
          · subst hce
            simp only [if_pos rfl] at h
            exact ih _ a c h rfl
          · simp only [if_neg hce] at h
            cases h
    | call dev env =>
      cases dev with
      | false =>
        simp only [getAccessType] at h
        exact ih _ a c h hc
      | true =>
        cases env with
        | none =>
          simp only [getAccessType, mergeEnv, hc] at h
          exact ih _ a c h rfl
        | some e =>
          simp only [getAccessType, mergeEnv, hc] at h
          by_cases hce : c = e
          · subst hce
            simp only [if_pos rfl] at h
            exact ih _ a c h rfl
          · simp only [if_neg hce] at h
            cases h

lemma getAccessType_env_of_mem :
    ∀ (us : List MemUser) (acc a : AccessType),
      getAccessType us acc = Except.ok a →
        ∀ e ∈ deviceEnvs us, a.env = some e := by
  intro us
  induction us with
  | nil =>
    intro acc a h e he
    cases he
  | cons u rest ih =>
    intro acc a h e he
    cases u with
    | ret => exact ih _ a h e he
    | copy isSrc isTgt => exact ih _ a h e he
    | other => exact ih _ a h e he
    | memEffect r w dev env =>
      cases dev with
      | false =>
        simp only [getAccessType] at h
        exact ih _ a h e (by simpa [deviceEnvs] using he)
      | true =>
        cases env with
        | none =>
          simp only [getAccessType, mergeEnv] at h
          cases hcur : acc.env with
          | none =>
            rw [hcur] at h
            exact ih _ a h e (by simpa [deviceEnvs] using he)
          | some c =>
            rw [hcur] at h
            exact ih _ a h e (by simpa [deviceEnvs] using he)
        | some e2 =>
          simp only [deviceEnvs, List.mem_cons] at he
          simp only [getAccessType, mergeEnv] at h
          cases hcur : acc.env with
          | none =>
            rw [hcur] at h
            rcases he with rfl | he
            · exact getAccessType_env_mono rest _ a e h rfl
            · exact ih _ a h e he
          | some c =>
            rw [hcur] at h
            by_cases hce : c = e2
            · subst hce
              simp only [if_pos rfl] at h
              rcases he with rfl | he
              · exact getAccessType_env_mono rest _ a e h rfl
              · exact ih _ a h e he
            · simp only [if_neg hce] at h
              cases h
    | call dev env =>
      cases dev with
      | false =>
        simp only [getAccessType] at h
        exact ih _ a h e (by simpa [deviceEnvs] using he)
      | true =>
        cases env with
        | none =>
          simp only [getAccessType, mergeEnv] at h
          cases hcur : acc.env with
          | none =>
            rw [hcur] at h
            exact ih _ a h e (by simpa [deviceEnvs] using he)
          | some c =>
            rw [hcur] at h
            exact ih _ a h e (by simpa [deviceEnvs] using he)
        | some e2 =>
          simp only [deviceEnvs, List.mem_cons] at he
          simp only [getAccessType, mergeEnv] at h
          cases hcur : acc.env with
          | none =>
            rw [hcur] at h
            rcases he with rfl | he
            · exact getAccessType_env_mono rest _ a e h rfl
            · exact ih _ a h e he
          | some c =>
            rw [hcur] at h
            by_cases hce : c = e2
            · subst hce
              simp only [if_pos rfl] at h
              rcases he with rfl | he
              · exact getAccessType_env_mono rest _ a e h rfl
              · exact ih _ a h e he
            · simp only [if_neg hce] at h
              cases h

lemma getAccessType_ok_of_compatible :
    ∀ (us : List MemUser) (acc : AccessType),
      (∀ e ∈ deviceEnvs us, ∀ c, acc.env = some c → c = e) →
      (∀ e1 ∈ deviceEnvs us, ∀ e2 ∈ deviceEnvs us, e1 = e2) →
      ∃ a, getAccessType us acc = Except.ok a := by
  intro us
  induction us with
  | nil =>
    intro acc hcompat hpair
    exact ⟨acc, rfl⟩
  | cons u rest ih =>
    intro acc hcompat hpair
    cases u with
    | ret =>
      simp only [getAccessType]
      exact ih _ (fun e he c hc => hcompat e (by simpa [deviceEnvs] using he) c hc)
        (fun e1 h1 e2 h2 => hpair e1 (by simpa [deviceEnvs] using h1) e2
          (by simpa [deviceEnvs] using h2))
    | copy isSrc isTgt =>
      simp only [getAccessType]
      exact ih _ (fun e he c hc => hcompat e (by simpa [deviceEnvs] using he) c hc)
        (fun e1 h1 e2 h2 => hpair e1 (by simpa [deviceEnvs] using h1) e2
          (by simpa [deviceEnvs] using h2))
    | other =>
      simp only [getAccessType]
      exact ih _ (fun e he c hc => hcompat e (by simpa [deviceEnvs] using he) c hc)
        (fun e1 h1 e2 h2 => hpair e1 (by simpa [deviceEnvs] using h1) e2
          (by simpa [deviceEnvs] using h2))
    | memEffect r w dev env =>
      cases dev with
      | false =>
        simp only [getAccessType]
        exact ih _ (fun e he c hc => hcompat e (by simpa [deviceEnvs] using he) c hc)
          (fun e1 h1 e2 h2 => hpair e1 (by simpa [deviceEnvs] using h1) e2
            (by simpa [deviceEnvs] using h2))
      | true =>
        cases env with
        | none =>
          simp only [getAccessType, mergeEnv]
          exact ih _ (fun e he c hc => hcompat e (by simpa [deviceEnvs] using he) c hc)
            (fun e1 h1 e2 h2 => hpair e1 (by simpa [deviceEnvs] using h1) e2
              (by simpa [deviceEnvs] using h2))
        | some e2 =>
          have hd : deviceEnvs (MemUser.memEffect r w true (some e2) :: rest) =
              e2 :: deviceEnvs rest := rfl
          simp only [getAccessType, mergeEnv]
          cases hcur : acc.env with
          | none =>
            refine ih _ ?_ ?_
            · intro e he c hc
              rw [Option.some_inj] at hc
              subst hc
              exact (hpair e2 (by rw [hd]; exact List.mem_cons_self _ _)
                e (by rw [hd]; exact List.mem_cons_of_mem _ he))
            · intro e1 h1 e3 h3
              exact hpair e1 (by rw [hd]; exact List.mem_cons_of_mem _ h1)
                e3 (by rw [hd]; exact List.mem_cons_of_mem _ h3)
          | some c =>
            have hce : c = e2 :=
              hcompat e2 (by rw [hd]; exact List.mem_cons_self _ _) c hcur
            subst hce
            simp only [if_pos rfl]
            refine ih _ ?_ ?_
            · intro e he c2 hc
              rw [Option.some_inj] at hc
              subst hc
              exact (hpair c (by rw [hd]; exact List.mem_cons_self _ _)
                e (by rw [hd]; exact List.mem_cons_of_mem _ he))
            · intro e1 h1 e3 h3
              exact hpair e1 (by rw [hd]; exact List.mem_cons_of_mem _ h1)
                e3 (by rw [hd]; exact List.mem_cons_of_mem _ h3)
    | call dev env =>
      cases dev with
      | false =>
        simp only [getAccessType]
        exact ih _ (fun e he c hc => hcompat e (by simpa [deviceEnvs] using he) c hc)
          (fun e1 h1 e2 h2 => hpair e1 (by simpa [deviceEnvs] using h1) e2
            (by simpa [deviceEnvs] using h2))
      | true =>
        cases env with
        | none =>
          simp only [getAccessType, mergeEnv]
          exact ih _ (fun e he c hc => hcompat e (by simpa [deviceEnvs] using he) c hc)
            (fun e1 h1 e2 h2 => hpair e1 (by simpa [deviceEnvs] using h1) e2
              (by simpa [deviceEnvs] using h2))
        | some e2 =>
          have hd : deviceEnvs (MemUser.call true (some e2) :: rest) =
              e2 :: deviceEnvs rest := rfl
          simp only [getAccessType, mergeEnv]
          cases hcur : acc.env with
          | none =>
            refine ih _ ?_ ?_
            · intro e he c hc
              rw [Option.some_inj] at hc
              subst hc
              exact (hpair e2 (by rw [hd]; exact List.mem_cons_self _ _)
                e (by rw [hd]; exact List.mem_cons_of_mem _ he))
            · intro e1 h1 e3 h3
              exact hpair e1 (by rw [hd]; exact List.mem_cons_of_mem _ h1)
                e3 (by rw [hd]; exact List.mem_cons_of_mem _ h3)
          | some c =>
            have hce : c = e2 :=
              hcompat e2 (by rw [hd]; exact List.mem_cons_self _ _) c hcur
            subst hce
            simp only [if_pos rfl]
            refine ih _ ?_ ?_
            · intro e he c2 hc
              rw [Option.some_inj] at hc
              subst hc
              exact (hpair c (by rw [hd]; exact List.mem_cons_self _ _)
                e (by rw [hd]; exact List.mem_cons_of_mem _ he))
            · intro e1 h1 e3 h3
              exact hpair e1 (by rw [hd]; exact List.mem_cons_of_mem _ h1)
                e3 (by rw [hd]; exact List.mem_cons_of_mem _ h3)

/-- C8: if a buffer's device uses resolve to two distinct gpu-region
environments, `getAccessType` returns the device-conflict error and the
allocation insertion fails; if all device uses share one environment, the
classification succeeds. -/
theorem c8_device_conflict (users : List MemUser) :
    (∀ e1 e2 : Nat, e1 ∈ deviceEnvs users → e2 ∈ deviceEnvs users →
      e1 ≠ e2 →
        getAccessType users initAccess = Except.error () ∧
        insertGpuAllocsParam users = Except.error ()) ∧
    ((∀ e1 ∈ deviceEnvs users, ∀ e2 ∈ deviceEnvs users, e1 = e2) →
      ∃ a, getAccessType users initAccess = Except.ok a ∧
        insertGpuAllocsParam users =
          Except.ok
            (createGpuAlloc { a with hostRead := true, hostWrite := true })) := by
  constructor
  · intro e1 e2 h1 h2 hne
    have herr : getAccessType users initAccess = Except.error () := by
      cases hres : getAccessType users initAccess with
      | ok a =>
        have he1 := getAccessType_env_of_mem users initAccess a hres e1 h1
        have he2 := getAccessType_env_of_mem users initAccess a hres e2 h2
        rw [he1] at he2
        exact absurd (Option.some_inj.mp he2) hne
      | error u => cases u; rfl
    refine ⟨herr, ?_⟩
    unfold insertGpuAllocsParam
    rw [herr]
  · intro hpair
    obtain ⟨a, ha⟩ := getAccessType_ok_of_compatible users initAccess
      (fun e he c hc => by cases hc) hpair
    refine ⟨a, ha, ?_⟩
    unfold insertGpuAllocsParam
    rw [ha]

/-- Witness for C8: two distinct envs conflict, a repeated env does not. -/
theorem c8_device_conflict_witness :
    getAccessType
        [MemUser.memEffect true true true (some 0),
         MemUser.memEffect true true true (some 1)] initAccess =
      Except.error () ∧
    (∃ a, getAccessType [MemUser.memEffect true true true (some 0),
        MemUser.memEffect true true true (some 0)] initAccess =
      Except.ok a) := by
  constructor
  · exact ((c8_device_conflict _).1 0 1 (by decide) (by decide)
      (by decide)).1
  · obtain ⟨a, ha, _⟩ := (c8_device_conflict
      [MemUser.memEffect true true true (some 0),
       MemUser.memEffect true true true (some 0)]).2
      (by intro e1 h1 e2 h2; fin_cases h1 <;> fin_cases h2 <;> rfl)
    exact ⟨a, ha⟩

/-- C6: tiling an outermost gpu-region parallel loop with zero lower bounds
and unit steps tiles min(3, n) axes; the new grid upper bounds are
`ceildivui(upper bound, suggested block size)` on tiled axes and 1 on unused
axes, the block upper bounds are the suggested sizes and 1 on unused axes;
the in-bounds guard holds iff every tiled axis's rebuilt flat index
(`gridId * blockSize + blockId`) is below the original upper bound; and the
dimension mapping is BlockX/Y/Z then ThreadX/Y/Z with every dimension at
index 6 and beyond mapped to Sequential. -/
theorem c6_tile_parallel (lbs ubs steps : List Nat) (localSize : Nat → Nat)
    (n : Nat) (hlb : lbs.length = n) (hub : ubs.length = n)
    (hst : steps.length = n) (hz : ∀ x ∈ lbs, x = 0)
    (ho : ∀ x ∈ steps, x = 1) (hn : 0 < n) :
    tileNumLoops lbs steps = min 3 n ∧
    (tileNewUpperBounds ubs localSize (min 3 n)).length = 6 + (n - min 3 n) ∧
    (∀ i, i < 3 →
      (tileNewUpperBounds ubs localSize (min 3 n)).getD i 0 =
        if i < min 3 n then ceilDivUI (ubs.getD i 1) (localSize i) else 1) ∧
    (∀ i, i < 3 →
      (tileNewUpperBounds ubs localSize (min 3 n)).getD (3 + i) 0 =
        if i < min 3 n then localSize i else 1) ∧
    (∀ gridIds blockIds : Nat → Nat,
      tileInBounds gridIds blockIds localSize ubs (min 3 n) = true ↔
        ∀ i, i < min 3 n →
          gridIds i * localSize i + blockIds i < ubs.getD i 1) ∧
    (∀ i, i < 6 + (n - min 3 n) →
      (tileMapping (6 + (n - min 3 n))).getD i Processor.sequential =
        getProcessor i) ∧
    (getProcessor 0 = Processor.blockX ∧ getProcessor 1 = Processor.blockY ∧
      getProcessor 2 = Processor.blockZ ∧
      getProcessor 3 = Processor.threadX ∧
      getProcessor 4 = Processor.threadY ∧
      getProcessor 5 = Processor.threadZ) ∧
    (∀ i, 6 ≤ i → getProcessor i = Processor.sequential) := by
  have hrange3 : List.range 3 = [0, 1, 2] := rfl
  refine ⟨?_, ?_, ?_, ?_, ?_, ?_, ⟨rfl, rfl, rfl, rfl, rfl, rfl⟩, ?_⟩
  · unfold tileNumLoops
    have hall : ∀ p ∈ (lbs.take 3).zip (steps.take 3),
        (decide (p.1 = 0) && decide (p.2 = 1)) = true := by
      intro p hp
      have hmem := List.of_mem_zip hp
      have h1 := hz p.1 (List.mem_of_mem_take hmem.1)
      have h2 := ho p.2 (List.mem_of_mem_take hmem.2)
      simp [h1, h2]
    rw [List.filter_eq_self.mpr hall, List.length_zip, List.length_take,
      List.length_take, hlb, hst, min_self]
  · simp [tileNewUpperBounds, hub]
    omega
  · intro i hi
    unfold tileNewUpperBounds
    rw [hrange3]
    interval_cases i <;> simp [List.getD]
  · intro i hi
    unfold tileNewUpperBounds
    rw [hrange3]
    interval_cases i <;> simp [List.getD]
  · intro gridIds blockIds
    unfold tileInBounds
    rw [List.all_eq_true]
    constructor
    · intro h i hik
      have := h i (List.mem_range.mpr hik)
      rw [decide_eq_true_eq] at this
      rwa [tileGlobalSize, if_pos hik, tileFlatIndex] at this
    · intro h i hi
      rw [List.mem_range] at hi
      rw [decide_eq_true_eq, tileGlobalSize, if_pos hi, tileFlatIndex]
      exact h i hi
  · intro i hi
    have hget : (tileMapping (6 + (n - min 3 n)))[i]? =
        some (getProcessor i) := by
      rw [tileMapping, List.getElem?_map, List.getElem?_range hi]
      rfl
    rw [List.getD_eq_getElem?_getD, hget]
    rfl
  · intro i hi
    obtain ⟨j, rfl⟩ : ∃ j, i = j + 6 := ⟨i - 6, by omega⟩
    rfl

/-- Witness for C6 on a 2-axis loop with bounds 7 and 9 and block size 4. -/
theorem c6_tile_parallel_witness :
    tileNumLoops [0, 0] [1, 1] = 2 ∧
    tileNewUpperBounds [7, 9] (fun _ => 4) 2 = [2, 3, 1, 4, 4, 1] ∧
    getProcessor 6 = Processor.sequential := by
  have h := c6_tile_parallel [0, 0] [7, 9] [1, 1] (fun _ => 4) 2 rfl rfl rfl
    (by decide) (by decide) (by decide)
  refine ⟨?_, by decide, h.2.2.2.2.2.2.2 6 (by decide)⟩
  simpa using h.1
